import Mathlib

/-!
Verification of the multi-listener server harness in `common/server.go` of
the hummingbird repository.  The Go code is shallowly embedded: the
`HummingbirdServer` record carries the `sync.WaitGroup` counter (as an
integer), the keep-alive flag of the embedded `http.Server`, and whether the
listener socket is still open.  Stateful Go methods become pure state
transformers; the side effects of `RunServers` become explicit event traces.
-/

namespace Hummingbird

/-- The `http.ConnState` values delivered to a `ConnState` callback. -/
inductive ConnState where
  | StateNew
  | StateActive
  | StateIdle
  | StateHijacked
  | StateClosed
  deriving DecidableEq, Repr

/-- State of one `HummingbirdServer`: the `sync.WaitGroup` counter (`wg`),
the keep-alive flag of the embedded `http.Server`, and whether the listening
socket is open. -/
structure HummingbirdServer where
  wgCounter : Int
  keepAlivesEnabled : Bool
  listenerOpen : Bool
  deriving DecidableEq, Repr

/-- A freshly constructed server as built in `RunServers`: counter zero,
keep-alives on (the `http.Server` default), listener open. -/
def initServer : HummingbirdServer :=
  { wgCounter := 0, keepAlivesEnabled := true, listenerOpen := true }

/-- Embedding of `HummingbirdServer.ConnStateChange`: `StateNew` performs
`wg.Add(1)`, `StateClosed` performs `wg.Done()`, every other state is
ignored. -/
def ConnStateChange (srv : HummingbirdServer) (state : ConnState) :
    HummingbirdServer :=
  if state = ConnState.StateNew then
    { srv with wgCounter := srv.wgCounter + 1 }
  else if state = ConnState.StateClosed then
    { srv with wgCounter := srv.wgCounter - 1 }
  else
    srv

/-- Deliver a linearised sequence of connection-state callbacks to a server.
The `sync.WaitGroup` operations are atomic, so any concurrent execution of
the callback is equivalent to some linear order of the events. -/
def runConnEvents (srv : HummingbirdServer) (evs : List ConnState) :
    HummingbirdServer :=
  evs.foldl ConnStateChange srv

/-- Embedding of `HummingbirdServer.Wait`, i.e. `wg.Wait()`: the call
unblocks exactly when the `WaitGroup` counter is zero. -/
def waitUnblocked (srv : HummingbirdServer) : Bool :=
  srv.wgCounter == 0

/-- Running the callback only changes the counter field. -/
theorem ConnStateChange_keepAlives (srv : HummingbirdServer)
    (state : ConnState) :
    (ConnStateChange srv state).keepAlivesEnabled = srv.keepAlivesEnabled ∧
      (ConnStateChange srv state).listenerOpen = srv.listenerOpen := by
  unfold ConnStateChange
  split <;> try split
  all_goals exact ⟨rfl, rfl⟩

/-- The counter after a sequence of events is the initial counter plus the
number of `StateNew` events minus the number of `StateClosed` events. -/
theorem runConnEvents_wgCounter (srv : HummingbirdServer)
    (evs : List ConnState) :
    (runConnEvents srv evs).wgCounter =
      srv.wgCounter + (evs.count ConnState.StateNew : Int)
        - (evs.count ConnState.StateClosed : Int) := by
  induction evs generalizing srv with
  | nil => simp [runConnEvents]
  | cons e rest ih =>
    have hstep : runConnEvents srv (e :: rest) =
        runConnEvents (ConnStateChange srv e) rest := rfl
    rw [hstep, ih]
    cases e <;> simp [ConnStateChange, List.count_cons] <;> ring

/-- A precondition of event traces: in every prefix, the number of
`StateClosed` events does not exceed the number of `StateNew` events, i.e.
every decrement is preceded by a matching prior increment. -/
def decAfterInc (evs : List ConnState) : Prop :=
  ∀ k, k ≤ evs.length →
    (evs.take k).count ConnState.StateClosed ≤
      (evs.take k).count ConnState.StateNew

/-- C2: starting from a fresh server, for every interleaving of
connection-accepted and connection-closed callbacks in which every decrement
is preceded by a matching prior increment, the `WaitGroup` counter is
non-negative at every point of the execution. -/
theorem connCounter_nonneg (evs : List ConnState) (h : decAfterInc evs) :
    ∀ k, 0 ≤ (runConnEvents initServer (evs.take k)).wgCounter := by
  intro k
  rw [runConnEvents_wgCounter]
  show (0 : Int) ≤ _
  have hcount : (evs.take k).count ConnState.StateClosed ≤
      (evs.take k).count ConnState.StateNew := by
    by_cases hk : k ≤ evs.length
    · exact h k hk
    · have hfull : evs.take k = evs := by
        apply List.take_of_length_le
        omega
      have := h evs.length (le_refl _)
      simpa [hfull, List.take_of_length_le (le_refl evs.length)] using this
  have : ((evs.take k).count ConnState.StateClosed : Int) ≤
      ((evs.take k).count ConnState.StateNew : Int) := by exact_mod_cast hcount
  simp [initServer]
  omega

/-- C2 witness at a concrete interleaving. -/
theorem connCounter_nonneg_witness :
    0 ≤ (runConnEvents initServer
        ([ConnState.StateNew, ConnState.StateActive, ConnState.StateNew,
          ConnState.StateClosed, ConnState.StateIdle,
          ConnState.StateClosed].take 4)).wgCounter :=
  connCounter_nonneg
    [ConnState.StateNew, ConnState.StateActive, ConnState.StateNew,
     ConnState.StateClosed, ConnState.StateIdle, ConnState.StateClosed]
    (by unfold decAfterInc; decide) 4

/-- C3: over any interleaving of N increments and N decrements in which no
decrement precedes its increment, the counter settles at zero, `Wait`
unblocks in that final state, and at any point of the execution `Wait`
unblocks only when the counter is zero — never before that state is
reached. -/
theorem wait_unblocks_at_zero (evs : List ConnState)
    (_hbal : decAfterInc evs)
    (heq : evs.count ConnState.StateNew = evs.count ConnState.StateClosed) :
    (runConnEvents initServer evs).wgCounter = 0 ∧
      waitUnblocked (runConnEvents initServer evs) = true ∧
      ∀ k, waitUnblocked (runConnEvents initServer (evs.take k)) = true →
        (runConnEvents initServer (evs.take k)).wgCounter = 0 := by
  refine ⟨?_, ?_, ?_⟩
  · rw [runConnEvents_wgCounter]
    simp [initServer, heq]
  · rw [waitUnblocked, runConnEvents_wgCounter]
    simp [initServer, heq]
  · intro k hk
    rw [waitUnblocked] at hk
    exact eq_of_beq hk

/-- C3 witness: two increments followed by two decrements. -/
theorem wait_unblocks_at_zero_witness :
    (runConnEvents initServer
      [ConnState.StateNew, ConnState.StateNew, ConnState.StateClosed,
       ConnState.StateClosed]).wgCounter = 0 :=
  (wait_unblocks_at_zero
    [ConnState.StateNew, ConnState.StateNew, ConnState.StateClosed,
     ConnState.StateClosed] (by unfold decAfterInc; decide) (by decide)).1

/-- C9: the connection-state callback increments the counter on `StateNew`,
decrements it on `StateClosed`, and on every other transition (`StateActive`,
`StateIdle`, `StateHijacked`) it leaves the entire server state unchanged;
in all cases the fields other than the counter are untouched. -/
theorem connStateChange_frame (srv : HummingbirdServer) (state : ConnState) :
    (ConnStateChange srv ConnState.StateNew).wgCounter = srv.wgCounter + 1 ∧
      (ConnStateChange srv ConnState.StateClosed).wgCounter =
        srv.wgCounter - 1 ∧
      (state ≠ ConnState.StateNew → state ≠ ConnState.StateClosed →
        ConnStateChange srv state = srv) ∧
      (ConnStateChange srv state).keepAlivesEnabled = srv.keepAlivesEnabled ∧
      (ConnStateChange srv state).listenerOpen = srv.listenerOpen := by
  refine ⟨rfl, rfl, ?_, (ConnStateChange_keepAlives srv state).1,
    (ConnStateChange_keepAlives srv state).2⟩
  intro hnew hclosed
  unfold ConnStateChange
  rw [if_neg hnew, if_neg hclosed]

/-- C9 witness: an idle transition leaves a concrete server unchanged. -/
theorem connStateChange_frame_witness :
    ConnStateChange initServer ConnState.StateIdle = initServer :=
  (connStateChange_frame initServer ConnState.StateIdle).2.2.1
    (by decide) (by decide)

/-! ### BeginShutdown -/

/-- The side effects a server method performs, in order. -/
inductive ServerAction where
  | setKeepAlivesEnabled (enabled : Bool)
  | closeListener
  deriving DecidableEq, Repr

/-- Embedding of `http.Server.SetKeepAlivesEnabled`. -/
def SetKeepAlivesEnabled (srv : HummingbirdServer) (enabled : Bool) :
    HummingbirdServer × List ServerAction :=
  ({ srv with keepAlivesEnabled := enabled },
   [ServerAction.setKeepAlivesEnabled enabled])

/-- Embedding of `net.Listener.Close` on the server's listener. -/
def listenerClose (srv : HummingbirdServer) :
    HummingbirdServer × List ServerAction :=
  ({ srv with listenerOpen := false }, [ServerAction.closeListener])

/-- Embedding of `HummingbirdServer.BeginShutdown`:
`srv.SetKeepAlivesEnabled(false)` followed by `srv.Listener.Close()`. -/
def BeginShutdown (srv : HummingbirdServer) :
    HummingbirdServer × List ServerAction :=
  let r1 := SetKeepAlivesEnabled srv false
  let r2 := listenerClose r1.1
  (r2.1, r1.2 ++ r2.2)

/-- A listener accepts new connections only while its socket is open. -/
def canAccept (srv : HummingbirdServer) : Bool :=
  srv.listenerOpen

/-- C6: `BeginShutdown` first disables keep-alive negotiation and then
closes the listening socket, in that order, after which the keep-alive flag
is off and no new connection can be accepted on that server. -/
theorem beginShutdown_order (srv : HummingbirdServer) :
    (BeginShutdown srv).2 =
        [ServerAction.setKeepAlivesEnabled false, ServerAction.closeListener] ∧
      (BeginShutdown srv).1.keepAlivesEnabled = false ∧
      canAccept (BeginShutdown srv).1 = false ∧
      (BeginShutdown srv).1.wgCounter = srv.wgCounter := by
  exact ⟨rfl, rfl, rfl, rfl⟩

/-! ### RunServers: startup and shutdown traces -/

/-- The POSIX signals that appear in `RunServers`. -/
inductive Signal where
  | SIGINT
  | SIGTERM
  | SIGQUIT
  | SIGHUP
  deriving DecidableEq, Repr

/-- The argument list of the `signal.Notify(c, ...)` call in `RunServers`:
the only signals the process subscribes to. -/
def notifiedSignals : List Signal :=
  [Signal.SIGTERM, Signal.SIGINT, Signal.SIGQUIT]

/-- Grace period of the shutdown watchdog, in seconds
(`time.Minute * 5`). -/
def gracePeriodSeconds : Nat := 5 * 60

/-- Pause inserted after each per-server drain wait, in seconds
(`time.Second * 5`). -/
def interServerPauseSeconds : Nat := 5

/-- Observable events of the `RunServers` signal-handling code, indexing
servers by their position in the `servers` slice. -/
inductive Event where
  | beginShutdown (i : Nat)
  | startWatchdog
  | wait (i : Nat)
  | sleep (seconds : Nat)
  | exitProcess (code : Nat)
  deriving DecidableEq, Repr

/-- The body of the watchdog goroutine:
`time.Sleep(time.Minute * 5); os.Exit(0)`. -/
def watchdogEvents : List Event :=
  [Event.sleep gracePeriodSeconds, Event.exitProcess 0]

/-- The drain loop of `RunServers` over servers `0..n-1`:
`srv.Wait()` then `time.Sleep(time.Second * 5)` for each server in slice
order. -/
def drainEvents : Nat → List Event
  | 0 => []
  | n + 1 =>
      drainEvents n ++ [Event.wait n, Event.sleep interServerPauseSeconds]

/-- The event trace of `RunServers` from the receipt of signal `s` (the
single value read from the signal channel) with `n` servers: on `SIGINT`,
`BeginShutdown` on every server in order, then the watchdog goroutine is
started, then the drain loop runs, then `os.Exit(0)`; on any other received
signal, `os.Exit(0)` immediately. -/
def shutdownEvents (n : Nat) (s : Signal) : List Event :=
  (if s = Signal.SIGINT then
      (List.range n).map Event.beginShutdown
        ++ [Event.startWatchdog] ++ drainEvents n
    else []) ++ [Event.exitProcess 0]

/-! ### Timing model of the graceful path

The watchdog goroutine and the drain loop run concurrently after
`BeginShutdown` has been called on every server; each ends in `os.Exit(0)`,
and whichever exits first terminates the process.  Durations are in seconds;
`⊤ : ℕ∞` models a connection that never closes. -/

/-- Wall-clock duration of the drain loop given each server's `Wait()`
duration: every iteration takes the wait's duration plus the
`interServerPauseSeconds` sleep that follows it. -/
def drainPathTime (ts : List ℕ∞) : ℕ∞ :=
  (ts.map (· + (interServerPauseSeconds : ℕ∞))).sum

/-- Time from the start of shutdown until `os.Exit(0)` runs: the earlier of
the watchdog firing and the drain loop finishing. -/
def processExitTime (ts : List ℕ∞) : ℕ∞ :=
  min (gracePeriodSeconds : ℕ∞) (drainPathTime ts)

theorem drainEvents_length (n : Nat) : (drainEvents n).length = 2 * n := by
  induction n with
  | zero => rfl
  | succ n ih =>
    rw [drainEvents, List.length_append, ih]
    simp
    omega

theorem wait_mem_drainEvents (j n : Nat) (h : j < n) :
    Event.wait j ∈ drainEvents n := by
  induction n with
  | zero => omega
  | succ n ih =>
    rw [drainEvents]
    rcases Nat.lt_succ_iff_lt_or_eq.mp h with h' | rfl
    · exact List.mem_append_left _ (ih h')
    · exact List.mem_append_right _ (by simp)

theorem drainEvents_getElem (n j : Nat) (h : j < n) :
    (drainEvents n)[2 * j]? = some (Event.wait j) ∧
      (drainEvents n)[2 * j + 1]? =
        some (Event.sleep interServerPauseSeconds) := by
  induction n with
  | zero => omega
  | succ n ih =>
    rw [drainEvents]
    rcases Nat.lt_succ_iff_lt_or_eq.mp h with h' | rfl
    · have h1 : 2 * j < (drainEvents n).length := by
        rw [drainEvents_length]; omega
      have h2 : 2 * j + 1 < (drainEvents n).length := by
        rw [drainEvents_length]; omega
      rw [List.getElem?_append_left h1, List.getElem?_append_left h2]
      exact ih h'
    · have h1 : (drainEvents j).length ≤ 2 * j := by
        rw [drainEvents_length]
      have h2 : (drainEvents j).length ≤ 2 * j + 1 := by
        rw [drainEvents_length]; omega
      rw [List.getElem?_append_right h1, List.getElem?_append_right h2,
        drainEvents_length]
      simp

theorem shutdownEvents_sigint (n : Nat) :
    shutdownEvents n Signal.SIGINT
      = (List.range n).map Event.beginShutdown
        ++ ([Event.startWatchdog]
          ++ (drainEvents n ++ [Event.exitProcess 0])) := by
  simp [shutdownEvents]

theorem shutdownEvents_take_begin (n : Nat) :
    (shutdownEvents n Signal.SIGINT).take n
      = (List.range n).map Event.beginShutdown := by
  rw [shutdownEvents_sigint, List.take_append_eq_append_take]
  have hlen : ((List.range n).map Event.beginShutdown).length = n := by simp
  rw [List.take_of_length_le (le_of_eq hlen), hlen]
  simp

theorem shutdownEvents_take_watchdog (n : Nat) :
    (shutdownEvents n Signal.SIGINT).take (n + 1)
      = (List.range n).map Event.beginShutdown ++ [Event.startWatchdog] := by
  rw [shutdownEvents_sigint, List.take_append_eq_append_take]
  have hlen : ((List.range n).map Event.beginShutdown).length = n := by simp
  have hone : n + 1 - ((List.range n).map Event.beginShutdown).length = 1 := by
    rw [hlen]; omega
  rw [List.take_of_length_le (by rw [hlen]; omega), hone]
  simp

theorem drainPathTime_finite (ts : List Nat) :
    drainPathTime (ts.map (fun t => (t : ℕ∞)))
      = ((ts.sum + ts.length * interServerPauseSeconds : Nat) : ℕ∞) := by
  induction ts with
  | nil => simp [drainPathTime]
  | cons t r ih =>
    simp [drainPathTime, List.map_cons, List.sum_cons] at ih ⊢
    rw [ih]
    ring

/-- C1: after receiving `SIGINT`, the first `n` events are the
`BeginShutdown` calls and the very next event starts the watchdog goroutine;
the watchdog sleeps 300 seconds (5 minutes) and then unconditionally calls
`os.Exit(0)` — exit code 0, success — regardless of drain progress; hence
for every assignment of drain durations to the servers, including `⊤` for a
connection that never closes, the process exits no later than
`gracePeriodSeconds` after shutdown began. -/
theorem watchdog_bounds_shutdown (n : Nat) (ts : List ℕ∞) :
    (shutdownEvents n Signal.SIGINT).take (n + 1)
        = (List.range n).map Event.beginShutdown ++ [Event.startWatchdog] ∧
      watchdogEvents = [Event.sleep 300, Event.exitProcess 0] ∧
      processExitTime ts ≤ (gracePeriodSeconds : ℕ∞) :=
  ⟨shutdownEvents_take_watchdog n, rfl, min_le_left _ _⟩

/-- C4: the `signal.Notify` call subscribes to exactly `SIGTERM`, `SIGINT`
and `SIGQUIT` (in particular not `SIGHUP`); the harness performs a single
blocking receive, so exactly one signal is consumed per process lifetime; a
received `SIGTERM` or `SIGQUIT` produces the trace `[exitProcess 0]` — an
immediate exit with no `BeginShutdown` and no `Wait` — while a received
`SIGINT` runs the graceful protocol, beginning shutdown on every server. -/
theorem signal_dispatch (n : Nat) :
    (∀ s : Signal, s ∈ notifiedSignals ↔
        (s = Signal.SIGINT ∨ s = Signal.SIGTERM ∨ s = Signal.SIGQUIT)) ∧
      Signal.SIGHUP ∉ notifiedSignals ∧
      (∀ s : Signal, s = Signal.SIGTERM ∨ s = Signal.SIGQUIT →
        shutdownEvents n s = [Event.exitProcess 0]) ∧
      (∀ i, i < n → Event.beginShutdown i ∈ shutdownEvents n Signal.SIGINT) := by
  refine ⟨?_, by decide, ?_, ?_⟩
  · intro s
    cases s <;> simp [notifiedSignals]
  · rintro s (rfl | rfl) <;> rfl
  · intro i hi
    rw [shutdownEvents_sigint]
    exact List.mem_append_left _ (List.mem_map_of_mem _ (List.mem_range.mpr hi))

/-- C4 witness: with two servers, a received `SIGTERM` exits immediately and
`SIGINT` begins shutdown on server 0. -/
theorem signal_dispatch_witness :
    shutdownEvents 2 Signal.SIGTERM = [Event.exitProcess 0] ∧
      Event.beginShutdown 0 ∈ shutdownEvents 2 Signal.SIGINT :=
  ⟨(signal_dispatch 2).2.2.1 Signal.SIGTERM (Or.inl rfl),
    (signal_dispatch 2).2.2.2 0 (by decide)⟩

/-- C5: in the `SIGINT` trace the first `n` events are exactly the
`BeginShutdown` calls on servers `0..n-1` in slice order, with no waiting
event between them; no `Wait` occurs anywhere among the first `n + 1` events
(so every `BeginShutdown` has completed before the first `Wait` starts); and
every server's `Wait` does occur in the trace, hence after its own
`BeginShutdown`. -/
theorem beginShutdown_before_waits (n : Nat) :
    (shutdownEvents n Signal.SIGINT).take n
        = (List.range n).map Event.beginShutdown ∧
      (∀ j, Event.wait j ∉ (shutdownEvents n Signal.SIGINT).take (n + 1)) ∧
      (∀ j, j < n → Event.wait j ∈ shutdownEvents n Signal.SIGINT) := by
  refine ⟨shutdownEvents_take_begin n, ?_, ?_⟩
  · intro j hmem
    rw [shutdownEvents_take_watchdog] at hmem
    rcases List.mem_append.mp hmem with h | h
    · rcases List.mem_map.mp h with ⟨i, _, hEq⟩
      exact Event.noConfusion hEq
    · simp at h
  · intro j hj
    rw [shutdownEvents_sigint]
    exact List.mem_append_right _ (List.mem_append_right _
      (List.mem_append_left _ (wait_mem_drainEvents j n hj)))

/-- C5 witness: with three servers, `Wait` on server 1 is not among the
first four events but does occur in the trace. -/
theorem beginShutdown_before_waits_witness :
    Event.wait 1 ∉ (shutdownEvents 3 Signal.SIGINT).take 4 ∧
      Event.wait 1 ∈ shutdownEvents 3 Signal.SIGINT :=
  ⟨(beginShutdown_before_waits 3).2.1 1,
    (beginShutdown_before_waits 3).2.2 1 (by decide)⟩

/-- C7: the drain loop blocks on `Wait` for servers `0, 1, ...` in slice
order, each `Wait` immediately followed by a sleep of
`interServerPauseSeconds`; when every drain finishes before the watchdog
(`drainPathTime ≤ gracePeriodSeconds`), the process exits exactly when the
drain loop finishes, which is at least
`ts.sum + (ts.length - 1) * interServerPauseSeconds` seconds after shutdown
began. -/
theorem drain_loop_time (ts : List Nat)
    (h : drainPathTime (ts.map (fun t => (t : ℕ∞)))
      ≤ (gracePeriodSeconds : ℕ∞)) :
    (∀ j, j < ts.length →
        (drainEvents ts.length)[2 * j]? = some (Event.wait j) ∧
          (drainEvents ts.length)[2 * j + 1]? =
            some (Event.sleep interServerPauseSeconds)) ∧
      processExitTime (ts.map (fun t => (t : ℕ∞)))
        = drainPathTime (ts.map (fun t => (t : ℕ∞))) ∧
      ((ts.sum + (ts.length - 1) * interServerPauseSeconds : Nat) : ℕ∞)
        ≤ processExitTime (ts.map (fun t => (t : ℕ∞))) := by
  refine ⟨fun j hj => drainEvents_getElem ts.length j hj, min_eq_right h, ?_⟩
  rw [processExitTime, min_eq_right h, drainPathTime_finite]
  have hle : ts.sum + (ts.length - 1) * interServerPauseSeconds
      ≤ ts.sum + ts.length * interServerPauseSeconds := by
    have : (ts.length - 1) * interServerPauseSeconds
        ≤ ts.length * interServerPauseSeconds :=
      Nat.mul_le_mul_right _ (Nat.sub_le _ _)
    omega
  exact_mod_cast hle

/-- C7 witness: two servers with drain times 7 s and 11 s finish before the
watchdog; the process exits at the drain loop's completion, at least
7 + 11 + 5 seconds after shutdown began. -/
theorem drain_loop_time_witness :
    ((7 + 11 + (2 - 1) * interServerPauseSeconds : Nat) : ℕ∞)
      ≤ processExitTime ([7, 11].map (fun t : Nat => (t : ℕ∞))) := by
  have h := (drain_loop_time [7, 11]
    (by norm_num [drainPathTime, interServerPauseSeconds,
      gracePeriodSeconds])).2.2
  simpa using h

/-! ### Server construction in RunServers -/

/-- One resolved configuration unit: the bind address and port returned by
the caller-supplied `GetServer` factory (the handler is opaque to the
harness). -/
structure BindSpec where
  ip : String
  port : Int
  deriving DecidableEq, Repr

/-- Embedding of the server-construction loop of `RunServers` (lines
176–188): for each configuration file in order, `GetServer` resolves a bind
spec and `net.Listen("tcp", ...)` is attempted — `bindOk` tells whether
listening succeeds for a spec.  A successful iteration starts the server
and appends it; the first failure panics with `Error listening on socket!`,
which aborts the whole process.  The error value carries the configuration
files whose servers had been started before the abort (they are torn down
with the process); configuration files after the failing one are never
examined. -/
def buildServers (GetServer : String → BindSpec) (bindOk : BindSpec → Bool) :
    List String → Except (String × List String) (List String)
  | [] => .ok []
  | cf :: rest =>
      if bindOk (GetServer cf) then
        match buildServers GetServer bindOk rest with
        | .ok servers => .ok (cf :: servers)
        | .error (msg, started) => .error (msg, cf :: started)
      else
        .error ("Error listening on socket!", [])

/-- C8: if binding fails for some configuration unit, construction aborts
with the fatal panic message; only the units strictly before the failing one
ever had servers started (all killed by the abort, so no partial set
survives), the failing unit's server is not started, and no later unit is
processed — the result does not depend on what follows the failing unit. -/
theorem bind_failure_fatal (GetServer : String → BindSpec)
    (bindOk : BindSpec → Bool) (pre : List String) (bad : String)
    (post : List String)
    (hpre : ∀ cf ∈ pre, bindOk (GetServer cf) = true)
    (hbad : bindOk (GetServer bad) = false) :
    buildServers GetServer bindOk (pre ++ bad :: post)
      = .error ("Error listening on socket!", pre) := by
  induction pre with
  | nil =>
    rw [List.nil_append, buildServers, if_neg (by rw [hbad]; exact Bool.false_ne_true)]
  | cons cf rest ih =>
    have hcf : bindOk (GetServer cf) = true := hpre cf (List.mem_cons_self ..)
    have hrest : ∀ c ∈ rest, bindOk (GetServer c) = true := fun c hc =>
      hpre c (List.mem_cons_of_mem _ hc)
    rw [List.cons_append, buildServers, if_pos hcf, ih hrest]

/-- C8 witness: with the second of three configuration units failing to
bind, construction aborts having started only the first. -/
theorem bind_failure_fatal_witness :
    buildServers (fun cf => { ip := cf, port := 80 })
        (fun spec => spec.ip != "b") ["a", "b", "c"]
      = .error ("Error listening on socket!", ["a"]) :=
  bind_failure_fatal (fun cf => { ip := cf, port := 80 })
    (fun spec => spec.ip != "b") ["a"] "b" ["c"] (by decide) (by decide)

/-! ### WebRequest.NillableFormValue -/

/-- The part of `WebRequest` (and its embedded `http.Request`) that
`NillableFormValue` touches: `Form` is `nil` (`none`) until parsed;
`parsedForm` is the key/values association that `http.Request.ParseForm`
would produce for this request from its URL query and body. -/
structure WebRequest where
  Form : Option (List (String × List String))
  parsedForm : List (String × List String)

/-- Embedding of the `r.ParseForm()` call: it populates `r.Form` with the
parsed form data (its error return is discarded by the caller). -/
def ParseForm (r : WebRequest) : WebRequest :=
  { r with Form := some r.parsedForm }

/-- Embedding of `WebRequest.NillableFormValue`: parse the form if `Form`
is still `nil`, then look the key up in the map; absent keys yield `nil`
(`none`), present keys yield a pointer to the first value — where Go's
`&vs[0]` on an empty slice would panic, the embedding returns `.error`. -/
def NillableFormValue (r : WebRequest) (key : String) :
    Except String (Option String × WebRequest) :=
  let r1 := if r.Form.isNone then ParseForm r else r
  match (r1.Form.getD []).lookup key with
  | none => .ok (none, r1)
  | some [] => .error "index out of range"
  | some (v :: _) => .ok (some v, r1)

/-- The form `NillableFormValue` consults: the already parsed one, or the
result of parsing when `Form` is still `nil`. -/
def effectiveForm (r : WebRequest) : List (String × List String) :=
  match r.Form with
  | none => r.parsedForm
  | some f => f

theorem lookup_mem_pair {α β : Type} [BEq α] [LawfulBEq α]
    {l : List (α × β)} {k : α} {v : β}
    (h : List.lookup k l = some v) : (k, v) ∈ l := by
  induction l with
  | nil => exact Option.noConfusion h
  | cons p rest ih =>
    rcases p with ⟨a, b⟩
    rw [List.lookup] at h
    split at h
    · cases h
      rename_i heq
      have hk : k = a := eq_of_beq heq
      subst hk
      exact List.mem_cons_self ..
    · exact List.mem_cons_of_mem _ (ih h)

/-- C10: provided every key of the effective form carries at least one
value (which `http.Request.ParseForm` guarantees), `NillableFormValue`
succeeds, parses the form first when it had not been parsed, returns `nil`
exactly when the key is absent from the parsed form, and otherwise returns
the first value associated with the key. -/
theorem nillableFormValue_spec (r : WebRequest) (key : String)
    (hwf : ∀ p ∈ effectiveForm r, p.2 ≠ []) :
    ∃ res r1, NillableFormValue r key = .ok (res, r1) ∧
      r1.Form = some (effectiveForm r) ∧
      r1.parsedForm = r.parsedForm ∧
      (res = none ↔ (effectiveForm r).lookup key = none) ∧
      ∀ vs, (effectiveForm r).lookup key = some vs → res = vs.head? := by
  have hform : (if r.Form.isNone then ParseForm r else r).Form
      = some (effectiveForm r) := by
    cases hF : r.Form with
    | none => simp [hF, ParseForm, effectiveForm]
    | some f => simp [hF, effectiveForm]
  have hparsed : (if r.Form.isNone then ParseForm r else r).parsedForm
      = r.parsedForm := by
    cases hF : r.Form with
    | none => simp [hF, ParseForm]
    | some f => simp [hF]
  rw [NillableFormValue]
  cases hlk : (effectiveForm r).lookup key with
  | none =>
    refine ⟨none, _, ?_, hform, hparsed, by simp, ?_⟩
    · rw [hform]
      simp [hlk]
    · intro vs hvs
      exact Option.noConfusion hvs
  | some vs =>
    have hne : vs ≠ [] := by
      have hmem : (key, vs) ∈ effectiveForm r := lookup_mem_pair hlk
      exact hwf (key, vs) hmem
    cases vs with
    | nil => exact absurd rfl hne
    | cons v vrest =>
      refine ⟨some v, _, ?_, hform, hparsed, by simp [hlk], ?_⟩
      · rw [hform]
        simp [hlk]
      · intro ws hws
        injection hws with h
        subst h
        rfl

/-- C10 witness: an unparsed request whose form carries `a ↦ [x, y]`;
looking up `a` parses the form and returns the first value `x`, matching
the parsed form. -/
theorem nillableFormValue_spec_witness :
    ∃ res r1,
      NillableFormValue { Form := none, parsedForm := [("a", ["x", "y"])] } "a"
          = .ok (res, r1) ∧
        r1.Form = some (effectiveForm
          { Form := none, parsedForm := [("a", ["x", "y"])] }) ∧
        r1.parsedForm = [("a", ["x", "y"])] ∧
        (res = none ↔ (effectiveForm
          { Form := none, parsedForm := [("a", ["x", "y"])] }).lookup "a"
            = none) ∧
        ∀ vs, (effectiveForm
          { Form := none, parsedForm := [("a", ["x", "y"])] }).lookup "a"
            = some vs → res = vs.head? :=
  nillableFormValue_spec
    { Form := none, parsedForm := [("a", ["x", "y"])] } "a" (by decide)

end Hummingbird
